import Mathlib

/-!
Verification development for the MIDI-to-Scratch converter
(`midi_to_scratch_gui.py`).  The core conversion pipeline is embedded
shallowly: Python ints become `ℤ`/`ℕ`, Python floats become `ℚ`
(every numeric literal appearing in the source is exactly representable
as a decimal, so rational arithmetic mirrors the float comparisons on
all inputs considered here), the output file becomes a list of
`OutputLine` values, and the fallible entry point becomes an `Except`.
GUI code, raw MIDI byte parsing and file I/O are out of scope (the
source treats them as collaborators); the embedding starts from the
parsed message stream, mirroring `mido`'s per-track messages.
-/

/-- The 26 `(lo, hi, target)` rows of `instrument_map` in
`gm_to_scratch_instrument`, in source order; a row matches `p` when
`lo ≤ p < hi`, mirroring Python's `gm_program in range(lo, hi)`. -/
def instrumentMap : List (ℤ × ℤ × ℕ) :=
  [(0, 2, 1), (2, 8, 2), (8, 9, 16),
   (9, 11, 17), (11, 16, 19), (16, 24, 3),
   (24, 28, 4), (28, 32, 5), (32, 40, 6),
   (40, 44, 8), (44, 48, 7), (48, 52, 8),
   (52, 56, 15), (56, 64, 9), (64, 68, 11),
   (68, 72, 10), (72, 74, 12), (74, 80, 13),
   (80, 88, 20), (88, 96, 21), (96, 104, 21),
   (104, 108, 13), (108, 112, 4), (112, 116, 18),
   (116, 120, 19), (120, 128, 21)]

/-- The function `gm_to_scratch_instrument`: first matching range wins, default 1. -/
def gm_to_scratch_instrument (gm_program : ℤ) : ℕ :=
  match instrumentMap.find? (fun r => decide (r.1 ≤ gm_program) && decide (gm_program < r.2.1)) with
  | some r => r.2.2
  | none => 1

/-- Round-half-to-even on a rational, as Python's `round` does on an
exact value. -/
def roundHalfEven (q : ℚ) : ℤ :=
  if q - ⌊q⌋ < 1/2 then ⌊q⌋
  else if q - ⌊q⌋ > 1/2 then ⌊q⌋ + 1
  else if Even ⌊q⌋ then ⌊q⌋ else ⌊q⌋ + 1

/-- Python's `round(x, 2)`: round to 2 decimal places, ties to even. -/
def round2 (q : ℚ) : ℚ :=
  (roundHalfEven (q * 100) : ℚ) / 100

/-- The quantizer `round_to_musical_beat`: the ascending threshold ladder from the
source, including the out-of-order `beat_value < 0.05` branch that
appears after the `beat_value < 0.0825` test.  Decimal literals of the
source are written as exact fractions (e.g. `0.027` as `27/1000`)
because `ℚ` scientific literals are irreducible and would block
evaluation. -/
def round_to_musical_beat (beat_value : ℚ) : ℚ :=
  if beat_value < 27/1000 then 1/32
  else if beat_value < 35/1000 then 4/100
  else if beat_value < 45/1000 then 5/100
  else if beat_value < 615/10000 then 625/10000
  else if beat_value < 825/10000 then 833/10000
  else if beat_value < 5/100 then 1/10
  else if beat_value < 1/10 then 125/1000
  else if beat_value < 15/100 then 166/1000
  else if beat_value < 2/10 then 25/100
  else if beat_value < 3/10 then 33/100
  else if beat_value < 4/10 then 5/10
  else if beat_value < 6/10 then 75/100
  else if beat_value < 8/10 then 1
  else if beat_value < 13/10 then 3/2
  else if beat_value < 5/2 then 2
  else if beat_value < 7/2 then 3
  else if beat_value < 9/2 then 4
  else if beat_value < 13/2 then 6
  else if beat_value < 15/2 then 7
  else if beat_value < 17/2 then 8
  else if beat_value < 21/2 then 10
  else if beat_value < 23/2 then 11
  else if beat_value < 25/2 then 12
  else if beat_value < 29/2 then 14
  else if beat_value < 31/2 then 15
  else if beat_value < 33/2 then 16
  else round2 beat_value

/-- A parsed MIDI message, as delivered per track by the external MIDI
reader (`mido`): a delta-time plus type-specific fields.  `other`
stands for any message type the converter ignores (meta messages and
the rest); it still advances the running absolute time. -/
inductive RawMsg
  | note_on (time : ℤ) (note : ℕ) (velocity : ℕ) (channel : ℕ)
  | note_off (time : ℤ) (note : ℕ) (velocity : ℕ) (channel : ℕ)
  | program_change (time : ℤ) (program : ℤ)
  | set_tempo (time : ℤ) (tempo : ℕ)
  | other (time : ℤ)
deriving DecidableEq

/-- The delta-time of a raw message (`msg.time`). -/
def RawMsg.time : RawMsg → ℤ
  | .note_on t _ _ _ => t
  | .note_off t _ _ _ => t
  | .program_change t _ => t
  | .set_tempo t _ => t
  | .other t => t

/-- A parsed MIDI file: resolution plus tracks, mirroring
`mid.ticks_per_beat` and `mid.tracks`. -/
structure MidiFile where
  ticks_per_beat : ℕ
  tracks : List (List RawMsg)
deriving DecidableEq

/-- An extracted event of the `events` list: the tuples
`(absolute_time, 'note_on', {...})` / `(absolute_time, 'note_off', {...})`
built in `midi_to_scratch`'s track loop. -/
inductive MEvent
  | noteOn (time : ℤ) (note : ℕ) (velocity : ℕ) (channel : ℕ) (program : ℤ)
  | noteOff (time : ℤ) (note : ℕ) (channel : ℕ)
deriving DecidableEq

/-- The absolute time of an extracted event. -/
def MEvent.time : MEvent → ℤ
  | .noteOn t _ _ _ _ => t
  | .noteOff t _ _ => t

/-- Whether an extracted event is a note-on. -/
def MEvent.isNoteOn : MEvent → Bool
  | .noteOn _ _ _ _ _ => true
  | .noteOff _ _ _ => false

/-- One track's pass of the extraction loop: accumulate absolute time,
track the current program (updated by `program_change`), and emit
`noteOn` for `note_on` with positive velocity, `noteOff` for `note_off`
or `note_on` with velocity 0.  `set_tempo` and other messages emit no
event here (tempo changes go to the separate tempo dictionary). -/
def extractTrack (absolute_time : ℤ) (current_program : ℤ) : List RawMsg → List MEvent
  | [] => []
  | msg :: rest =>
    let t := absolute_time + msg.time
    match msg with
    | .note_on _ note vel ch =>
      if vel > 0 then .noteOn t note vel ch current_program :: extractTrack t current_program rest
      else .noteOff t note ch :: extractTrack t current_program rest
    | .note_off _ note _ ch => .noteOff t note ch :: extractTrack t current_program rest
    | .program_change _ p => extractTrack t p rest
    | .set_tempo _ _ => extractTrack t current_program rest
    | .other _ => extractTrack t current_program rest

/-- All tracks' events, concatenated in track order (each track starts
at `absolute_time = 0`, `current_program = 0`). -/
def extractAll (tracks : List (List RawMsg)) : List MEvent :=
  (tracks.map (extractTrack 0 0)).flatten

/-- Stable sort by absolute time, as `events.sort(key=lambda x: x[0])`. -/
def sortEvents (events : List MEvent) : List MEvent :=
  events.mergeSort (fun a b => decide (a.time ≤ b.time))

/-- Insert into an insertion-ordered dictionary: overwriting an existing
key keeps its position, a new key is appended — as Python dicts do. -/
def dictInsert (k : ℤ) (v : ℕ) : List (ℤ × ℕ) → List (ℤ × ℕ)
  | [] => [(k, v)]
  | (k', v') :: rest => if k' = k then (k, v) :: rest else (k', v') :: dictInsert k v rest

/-- The tempo-dictionary pass of one track: record
`tempo_changes[absolute_time] = msg.tempo` at each `set_tempo`. -/
def tempoTrack (absolute_time : ℤ) (d : List (ℤ × ℕ)) : List RawMsg → List (ℤ × ℕ)
  | [] => d
  | msg :: rest =>
    let t := absolute_time + msg.time
    match msg with
    | .set_tempo _ tempo => tempoTrack t (dictInsert t tempo d) rest
    | _ => tempoTrack t d rest

/-- The full `tempo_changes` dictionary, initialized `{0: 500000}` and
filled across all tracks in order. -/
def tempoDict (tracks : List (List RawMsg)) : List (ℤ × ℕ) :=
  tracks.foldl (fun d track => tempoTrack 0 d track) [(0, 500000)]

/-- Lookup `tempo_changes.get(0, 500000)`. -/
def tempoAtZero (d : List (ℤ × ℕ)) : ℕ :=
  match d.find? (fun kv => decide (kv.1 = 0)) with
  | some kv => kv.2
  | none => 500000

/-- A chord produced by the grouping pass:
`(time, notes list in collection order, anchor's raw program)`. -/
def Chord : Type := ℤ × List ℕ × ℤ

instance : DecidableEq Chord := by
  unfold Chord
  infer_instance

/-- The inner scan of the grouper: every `note_on` of the full event
list whose time is within `tolerance` of the anchor time contributes
its note, in list order. -/
def chordNotes (all : List MEvent) (time : ℤ) (tolerance : ℚ) : List ℕ :=
  all.filterMap fun e =>
    match e with
    | .noteOn t' n _ _ _ => if ((|t' - time| : ℤ) : ℚ) ≤ tolerance then some n else none
    | .noteOff _ _ _ => none

/-- The times marked processed by the inner scan: the absolute times of
exactly the matched `note_on` events. -/
def chordTimes (all : List MEvent) (time : ℤ) (tolerance : ℚ) : List ℤ :=
  all.filterMap fun e =>
    match e with
    | .noteOn t' _ _ _ _ => if ((|t' - time| : ℤ) : ℚ) ≤ tolerance then some t' else none
    | .noteOff _ _ _ => none

/-- The grouping loop: walk the event list, skip non-`note_on` events
and anchors whose time is already in `processed_times`; otherwise scan
the entire original list (`all`) for notes within tolerance, emit the
chord, and add the matched times to `processed_times`.  The progress
callback of the source is ignored (it does not affect the output). -/
def groupGo (all : List MEvent) (tolerance : ℚ) : List MEvent → List ℤ → List Chord
  | [], _ => []
  | .noteOff _ _ _ :: rest, processed => groupGo all tolerance rest processed
  | .noteOn t _ _ _ p :: rest, processed =>
    if t ∈ processed then groupGo all tolerance rest processed
    else (t, chordNotes all t tolerance, p) ::
      groupGo all tolerance rest (processed ++ chordTimes all t tolerance)

/-- Chord grouping over the sorted event list with
`tolerance = ticks_per_beat / 32`. -/
def groupChords (ticks_per_beat : ℕ) (events : List MEvent) : List Chord :=
  groupGo events ((ticks_per_beat : ℚ) / 32) events []

/-- Payload of an entry of `grouped_events`: a chord (with its note
list and the anchor's program) or a tempo change. -/
inductive GKind
  | chord (notes : List ℕ) (program : ℤ)
  | tempo (tempo : ℕ)
deriving DecidableEq

/-- The list `grouped_events` after the final sort: chords first (in emission
order), then the positive-time tempo entries, stably sorted by time. -/
def mergeGrouped (chords : List Chord) (tempos : List (ℤ × ℕ)) : List (ℤ × GKind) :=
  ((chords.map (fun c => (c.1, GKind.chord c.2.1 c.2.2))) ++
   ((tempos.filter (fun kv => decide (kv.1 > 0))).map (fun kv => (kv.1, GKind.tempo kv.2)))).mergeSort
    (fun a b => decide (a.1 ≤ b.1))

/-- One line of the output file. -/
inductive OutputLine
  | instr (i : ℕ)
  | bpm (b : ℚ)
  | rest (r : ℚ)
  | note (notes : List ℕ)
deriving DecidableEq

/-- Serializer state: `previous_time`, `current_bpm`, `last_instrument`. -/
structure SState where
  previous_time : ℤ
  current_bpm : ℚ
  last_instrument : ℕ
deriving DecidableEq

/-- The lines emitted for one chord event, each tagged with the event's
time: an `Instr:` line when the instrument changes, a `Rest:` line when
the gap is positive and at least `0.03125` beats (quantized), then the
`Note:` line with the notes sorted ascending. -/
def chordLines (ticks_per_beat : ℕ) (st : SState) (time_point : ℤ) (notes : List ℕ)
    (program : ℤ) : List (ℤ × OutputLine) :=
  (if gm_to_scratch_instrument program ≠ st.last_instrument then
    [(time_point, OutputLine.instr (gm_to_scratch_instrument program))]
  else []) ++
  (if st.previous_time < time_point then
    (if (1/32 : ℚ) ≤ ((time_point - st.previous_time : ℤ) : ℚ) / (ticks_per_beat : ℚ) then
      [(time_point, OutputLine.rest
        (round_to_musical_beat (((time_point - st.previous_time : ℤ) : ℚ) / (ticks_per_beat : ℚ))))]
    else [])
  else []) ++
  [(time_point, OutputLine.note (notes.mergeSort (fun a b => decide (a ≤ b))))]

/-- The state after a chord event: `previous_time` becomes the chord's
time and `last_instrument` the chord's instrument. -/
def chordState (st : SState) (time_point : ℤ) (program : ℤ) : SState :=
  ⟨time_point, st.current_bpm, gm_to_scratch_instrument program⟩

/-- The lines emitted for one tempo event: a `BPM:` line when
`60000000 / tempo` differs from the current BPM. -/
def tempoLines (st : SState) (time_point : ℤ) (tempo : ℕ) : List (ℤ × OutputLine) :=
  if (60000000 : ℚ) / (tempo : ℚ) ≠ st.current_bpm then
    [(time_point, OutputLine.bpm ((60000000 : ℚ) / (tempo : ℚ)))]
  else []

/-- The state after a tempo event. -/
def tempoState (st : SState) (tempo : ℕ) : SState :=
  ⟨st.previous_time, (60000000 : ℚ) / (tempo : ℚ), st.last_instrument⟩

/-- The serializer walk over the merged event stream, tagging every
emitted line with the time of the event that produced it. -/
def serializeTimed (ticks_per_beat : ℕ) : SState → List (ℤ × GKind) → List (ℤ × OutputLine)
  | _, [] => []
  | st, (t, .tempo tempo) :: rest =>
    tempoLines st t tempo ++ serializeTimed ticks_per_beat (tempoState st tempo) rest
  | st, (t, .chord notes program) :: rest =>
    chordLines ticks_per_beat st t notes program ++
      serializeTimed ticks_per_beat (chordState st t program) rest

/-- The initial `first_instrument` scan: the Scratch instrument of the first `note_on`
in the time-sorted event list, default 1. -/
def firstInstrument : List MEvent → ℕ
  | [] => 1
  | .noteOn _ _ _ _ p :: _ => gm_to_scratch_instrument p
  | .noteOff _ _ _ :: rest => firstInstrument rest

/-- The time-sorted global event list of a file. -/
def fileEvents (m : MidiFile) : List MEvent :=
  sortEvents (extractAll m.tracks)

/-- The initial BPM: `60000000 / tempo_changes.get(0, 500000)`. -/
def initialBpm (m : MidiFile) : ℚ :=
  (60000000 : ℚ) / (tempoAtZero (tempoDict m.tracks) : ℚ)

/-- The merged, time-sorted stream of chords and tempo changes. -/
def mergedStream (m : MidiFile) : List (ℤ × GKind) :=
  mergeGrouped (groupChords m.ticks_per_beat (fileEvents m)) (tempoDict m.tracks)

/-- The time-tagged body of the output: everything after the initial
`Instr:`/`BPM:` pair. -/
def timedBody (m : MidiFile) : List (ℤ × OutputLine) :=
  serializeTimed m.ticks_per_beat
    ⟨0, initialBpm m, firstInstrument (fileEvents m)⟩ (mergedStream m)

instance {ε α : Type} [DecidableEq ε] [DecidableEq α] : DecidableEq (Except ε α) := fun
  | .error a, .error b => decidable_of_iff (a = b) (by simp)
  | .error _, .ok _ => isFalse (by simp)
  | .ok _, .error _ => isFalse (by simp)
  | .ok a, .ok b => decidable_of_iff (a = b) (by simp)

/-- The failure message of the empty-events check. -/
def noNotesMsg : String := "No note events found in MIDI file!"

/-- The entry point `midi_to_scratch`, from the parsed file to the output lines.
Reading and writing the actual files is performed by out-of-scope
collaborators; success here stands for a written output file.  The
`note_end_times` index the source builds from `note_off` events is
dead computation (never consulted afterwards) and is omitted. -/
def midi_to_scratch (m : MidiFile) : Except String (List OutputLine) :=
  if fileEvents m = [] then Except.error noNotesMsg
  else Except.ok
    (OutputLine.instr (firstInstrument (fileEvents m)) ::
     OutputLine.bpm (initialBpm m) ::
     (timedBody m).map Prod.snd)


/-! Theorems settling the claims. -/

/-- C1, counterexample.  The source's emptiness check is `if not events`
on the list of *all* extracted note events, note-offs included.  A
stream whose only message is a `note_off` therefore contains zero
`note_on` events, yet the conversion succeeds and writes an output file
(the initial `Instr: 1` / `BPM: 120.0` pair), refuting the claim that
zero `note_on` events yield the "no notes found" failure. -/
theorem c1_zero_noteOn_succeeds :
    (fileEvents ⟨480, [[RawMsg.note_off 0 60 0 0]]⟩).all (fun e => !e.isNoteOn) = true ∧
    midi_to_scratch ⟨480, [[RawMsg.note_off 0 60 0 0]]⟩ =
      Except.ok [OutputLine.instr 1, OutputLine.bpm 120] := by
  constructor
  · with_unfolding_all decide
  · with_unfolding_all decide

/-- C1, amended: `midi_to_scratch` returns the distinct
"no notes found" failure (writing no output file) exactly when the
decoded stream contains zero note events of either kind — no `note_on`
*and* no `note_off`; when any note event exists, even with zero
`note_on` events, it succeeds and writes an output file. -/
theorem c1_no_notes_iff (m : MidiFile) :
    midi_to_scratch m = Except.error noNotesMsg ↔ fileEvents m = [] := by
  unfold midi_to_scratch
  split
  · simp [*]
  · simp [*]

/-- C2, counterexample.  With `ticks_per_beat = 480`, a `note_on` at
tick 480 and a tempo change to 600000 µs/beat also at tick 480, the
chord and the tempo event share the timestamp 480, and the emitted
output places the chord's `Note:` line *before* the `BPM:` line,
refuting the claim that the `BPM:` line comes first. -/
theorem c2_note_before_bpm :
    midi_to_scratch ⟨480, [[RawMsg.note_on 480 60 64 0, RawMsg.set_tempo 0 600000]]⟩ =
      Except.ok [OutputLine.instr 1, OutputLine.bpm 120, OutputLine.rest (3/2),
        OutputLine.note [60], OutputLine.bpm 100] := by
  with_unfolding_all decide

/-- C2, amended: when a tempo-change event and a chord event share the
same absolute timestamp in the merged stream, the stable sort keeps
the chord (appended first) ahead of the tempo entry, so the serializer
emits the chord's lines first, immediately followed by the tempo's
`BPM:` line. -/
theorem c2_chord_then_bpm (tpb : ℕ) (st : SState) (t : ℤ) (notes : List ℕ)
    (prog : ℤ) (tv : ℕ) (ht : 0 < t) :
    serializeTimed tpb st (mergeGrouped [(t, notes, prog)] [(t, tv)]) =
      chordLines tpb st t notes prog ++ tempoLines (chordState st t prog) t tv := by
  have hm : mergeGrouped [(t, notes, prog)] [(t, tv)] =
      [(t, GKind.chord notes prog), (t, GKind.tempo tv)] := by
    unfold mergeGrouped
    have hf : [((t : ℤ), tv)].filter (fun kv => decide (kv.1 > 0)) = [(t, tv)] := by
      simp [ht]
    rw [hf]
    exact List.mergeSort_of_sorted (by simp)
  rw [hm]
  simp [serializeTimed]

/-- C2, amended, witness at a concrete input. -/
theorem c2_chord_then_bpm_witness :
    serializeTimed 480 ⟨0, 120, 1⟩ (mergeGrouped [(480, [60], 0)] [(480, 600000)]) =
      chordLines 480 ⟨0, 120, 1⟩ 480 [60] 0 ++
        tempoLines (chordState ⟨0, 120, 1⟩ 480 0) 480 600000 :=
  c2_chord_then_bpm 480 ⟨0, 120, 1⟩ 480 [60] 0 600000 (by decide)

/-- C3: the end-to-end scenario.  `ticks_per_beat = 480`, one track
with `set_tempo 500000` at tick 0, another with `note_on(note=60)`
(program 0) at tick 0 and a `note_off` at tick 480: the output is
exactly `Instr: 1`, `BPM: 120.0`, `Note: 60` (the rational 120 stands
for the float `120.0` of the formatted line). -/
theorem c3_end_to_end :
    midi_to_scratch ⟨480, [[RawMsg.set_tempo 0 500000],
        [RawMsg.note_on 0 60 64 0, RawMsg.note_off 480 60 0 0]]⟩ =
      Except.ok [OutputLine.instr 1, OutputLine.bpm 120, OutputLine.note [60]] := by
  with_unfolding_all decide

/-- C5: with `ticks_per_beat = 480` the tolerance is `480/32 = 15`
ticks; `note_on` events at ticks 0 and 15 merge into a single chord
(the bound is inclusive), while events at ticks 0 and 16 produce two
separate chords. -/
theorem c5_tolerance_boundary :
    groupChords 480 [MEvent.noteOn 0 60 64 0 0, MEvent.noteOn 15 64 64 0 0] =
      [(0, [60, 64], 0)] ∧
    groupChords 480 [MEvent.noteOn 0 60 64 0 0, MEvent.noteOn 16 64 64 0 0] =
      [(0, [60], 0), (16, [64], 0)] := by
  constructor
  · with_unfolding_all decide
  · with_unfolding_all decide

/-- C9: the inner chord scan re-reads the raw event list and only marks
*times* processed, so one `note_on` can land in two chords: with
tolerance 15, `note_on`s at ticks 0, 15 and 30 produce chords at times
0 and 30 that both contain the note (64) of the tick-15 event. -/
theorem c9_note_in_two_chords :
    groupChords 480 [MEvent.noteOn 0 60 64 0 0, MEvent.noteOn 15 64 64 0 0,
        MEvent.noteOn 30 67 64 0 0] =
      [(0, [60, 64], 0), (30, [64, 67], 0)] ∧
    (groupChords 480 [MEvent.noteOn 0 60 64 0 0, MEvent.noteOn 15 64 64 0 0,
        MEvent.noteOn 30 67 64 0 0]).all (fun c => decide (64 ∈ c.2.1)) = true := by
  constructor
  · with_unfolding_all decide
  · with_unfolding_all decide

/-- C4: totality of the instrument map.  For every program in
[0,127] the result lies in [1,21] and the lookup finds a matching
range (the default is never reached); the 26 ranges are pairwise
disjoint and cover all of [0,127]; any out-of-range input returns 1. -/
theorem c4_instrument_map_total :
    (∀ p : ℤ, 0 ≤ p → p ≤ 127 →
      (1 ≤ gm_to_scratch_instrument p ∧ gm_to_scratch_instrument p ≤ 21) ∧
      (instrumentMap.find? (fun r => decide (r.1 ≤ p) && decide (p < r.2.1))).isSome = true ∧
      ∃ r ∈ instrumentMap, r.1 ≤ p ∧ p < r.2.1) ∧
    instrumentMap.length = 26 ∧
    instrumentMap.Pairwise (fun r s => ∀ p : ℤ, r.1 ≤ p → p < r.2.1 →
      ¬(s.1 ≤ p ∧ p < s.2.1)) ∧
    (∀ p : ℤ, p < 0 ∨ 127 < p → gm_to_scratch_instrument p = 1) := by
  refine ⟨?_, by decide, ?_, ?_⟩
  · have key : ∀ n : Fin 128,
        (1 ≤ gm_to_scratch_instrument ((n : ℕ) : ℤ) ∧
          gm_to_scratch_instrument ((n : ℕ) : ℤ) ≤ 21) ∧
        (instrumentMap.find? (fun r => decide (r.1 ≤ ((n : ℕ) : ℤ)) &&
          decide (((n : ℕ) : ℤ) < r.2.1))).isSome = true ∧
        ∃ r ∈ instrumentMap, r.1 ≤ ((n : ℕ) : ℤ) ∧ ((n : ℕ) : ℤ) < r.2.1 := by decide
    intro p h0 h1
    have hlt : p.toNat < 128 := by omega
    have hp : ((((⟨p.toNat, hlt⟩ : Fin 128) : ℕ)) : ℤ) = p := by
      simp [Int.toNat_of_nonneg h0]
    have := key ⟨p.toNat, hlt⟩
    rwa [hp] at this
  · have h : instrumentMap.Pairwise (fun r s => r.2.1 ≤ s.1 ∨ s.2.1 ≤ r.1) := by decide
    refine h.imp ?_
    intro r s hrs p hp1 hp2 hq
    rcases hrs with h' | h' <;> omega
  · intro p hp
    have hnone : instrumentMap.find?
        (fun r => decide (r.1 ≤ p) && decide (p < r.2.1)) = none := by
      rw [List.find?_eq_none]
      intro x hx
      fin_cases hx <;> simp <;> omega
    unfold gm_to_scratch_instrument
    rw [hnone]

/-- C4, witness: an in-range program and an out-of-range one. -/
theorem c4_instrument_map_witness :
    ((1 ≤ gm_to_scratch_instrument 60 ∧ gm_to_scratch_instrument 60 ≤ 21) ∧
      (instrumentMap.find? (fun r => decide (r.1 ≤ (60 : ℤ)) &&
        decide ((60 : ℤ) < r.2.1))).isSome = true ∧
      ∃ r ∈ instrumentMap, r.1 ≤ (60 : ℤ) ∧ (60 : ℤ) < r.2.1) ∧
    gm_to_scratch_instrument (-5) = 1 :=
  ⟨c4_instrument_map_total.1 60 (by decide) (by decide),
   c4_instrument_map_total.2.2.2 (-5) (Or.inl (by decide))⟩

/-- C6: the quantizer reproduces the documented boundaries —
`round_to_musical_beat 0.79 = 1`, `round_to_musical_beat 0.81 = 1.5` —
and every input strictly greater than 16.5 falls through the whole
ladder and is returned rounded to 2 decimal places. -/
theorem c6_threshold_ladder :
    round_to_musical_beat (79/100) = 1 ∧ round_to_musical_beat (81/100) = 3/2 ∧
    ∀ q : ℚ, 33/2 < q → round_to_musical_beat q = round2 q := by
  refine ⟨by with_unfolding_all decide, by with_unfolding_all decide, ?_⟩
  intro q h
  rw [round_to_musical_beat]
  repeat rw [if_neg (by linarith)]

/-- C6, witness: an input beyond the last threshold. -/
theorem c6_threshold_ladder_witness :
    round_to_musical_beat 17 = round2 17 :=
  c6_threshold_ladder.2.2 17 (by norm_num)

/-- C10: `round_to_musical_beat` never returns 0.1 on a non-negative
input: the branch returning `0.1` requires `beat_value < 0.05` after
`beat_value < 0.0825` already failed, which is impossible, and the
final `round(x, 2)` branch only fires for inputs at least 16.5. -/
theorem c10_dotted_32th_unreachable (q : ℚ) (h : 0 ≤ q) :
    round_to_musical_beat q ≠ 1/10 := by
  rw [round_to_musical_beat]
  by_cases h1 : q < 27/1000
  · rw [if_pos h1]
    norm_num
  rw [if_neg h1]
  by_cases h2 : q < 35/1000
  · rw [if_pos h2]
    norm_num
  rw [if_neg h2]
  by_cases h3 : q < 45/1000
  · rw [if_pos h3]
    norm_num
  rw [if_neg h3]
  by_cases h4 : q < 615/10000
  · rw [if_pos h4]
    norm_num
  rw [if_neg h4]
  by_cases h5 : q < 825/10000
  · rw [if_pos h5]
    norm_num
  rw [if_neg h5]
  by_cases h6 : q < 5/100
  · exact absurd h6 (not_lt.mpr (by linarith [not_lt.mp h5]))
  rw [if_neg h6]
  by_cases h7 : q < 1/10
  · rw [if_pos h7]
    norm_num
  rw [if_neg h7]
  by_cases h8 : q < 15/100
  · rw [if_pos h8]
    norm_num
  rw [if_neg h8]
  by_cases h9 : q < 2/10
  · rw [if_pos h9]
    norm_num
  rw [if_neg h9]
  by_cases h10 : q < 3/10
  · rw [if_pos h10]
    norm_num
  rw [if_neg h10]
  by_cases h11 : q < 4/10
  · rw [if_pos h11]
    norm_num
  rw [if_neg h11]
  by_cases h12 : q < 6/10
  · rw [if_pos h12]
    norm_num
  rw [if_neg h12]
  by_cases h13 : q < 8/10
  · rw [if_pos h13]
    norm_num
  rw [if_neg h13]
  by_cases h14 : q < 13/10
  · rw [if_pos h14]
    norm_num
  rw [if_neg h14]
  by_cases h15 : q < 5/2
  · rw [if_pos h15]
    norm_num
  rw [if_neg h15]
  by_cases h16 : q < 7/2
  · rw [if_pos h16]
    norm_num
  rw [if_neg h16]
  by_cases h17 : q < 9/2
  · rw [if_pos h17]
    norm_num
  rw [if_neg h17]
  by_cases h18 : q < 13/2
  · rw [if_pos h18]
    norm_num
  rw [if_neg h18]
  by_cases h19 : q < 15/2
  · rw [if_pos h19]
    norm_num
  rw [if_neg h19]
  by_cases h20 : q < 17/2
  · rw [if_pos h20]
    norm_num
  rw [if_neg h20]
  by_cases h21 : q < 21/2
  · rw [if_pos h21]
    norm_num
  rw [if_neg h21]
  by_cases h22 : q < 23/2
  · rw [if_pos h22]
    norm_num
  rw [if_neg h22]
  by_cases h23 : q < 25/2
  · rw [if_pos h23]
    norm_num
  rw [if_neg h23]
  by_cases h24 : q < 29/2
  · rw [if_pos h24]
    norm_num
  rw [if_neg h24]
  by_cases h25 : q < 31/2
  · rw [if_pos h25]
    norm_num
  rw [if_neg h25]
  by_cases h26 : q < 33/2
  · rw [if_pos h26]
    norm_num
  rw [if_neg h26]
  have hq : (33 : ℚ)/2 ≤ q := not_lt.mp h26
  have hfl : (1650 : ℤ) ≤ ⌊q * 100⌋ := by
    apply Int.le_floor.mpr
    push_cast
    linarith
  have hrhe : (1650 : ℤ) ≤ roundHalfEven (q * 100) := by
    rw [roundHalfEven]
    by_cases ha : q * 100 - ⌊q * 100⌋ < 1/2
    · rw [if_pos ha]
      omega
    rw [if_neg ha]
    by_cases hb : q * 100 - ⌊q * 100⌋ > 1/2
    · rw [if_pos hb]
      omega
    rw [if_neg hb]
    by_cases hc : Even ⌊q * 100⌋
    · rw [if_pos hc]
      omega
    rw [if_neg hc]
    omega
  intro hc
  rw [round2, div_eq_iff (by norm_num : (100 : ℚ) ≠ 0)] at hc
  norm_num at hc
  have h10 : roundHalfEven (q * 100) = 10 := by exact_mod_cast hc
  omega

/-- C10, witness. -/
theorem c10_dotted_32th_unreachable_witness :
    round_to_musical_beat (1/2) ≠ 1/10 :=
  c10_dotted_32th_unreachable (1/2) (by norm_num)

/-- The anchor's own time is always among the matched times: it is a
`note_on` in the scanned list, at distance 0 ≤ tolerance. -/
lemma self_mem_chordTimes {all : List MEvent} {t : ℤ} {tol : ℚ} (htol : 0 ≤ tol)
    {n v c p : _} (he : MEvent.noteOn t n v c p ∈ all) : t ∈ chordTimes all t tol := by
  unfold chordTimes
  refine List.mem_filterMap.mpr ⟨MEvent.noteOn t n v c p, he, ?_⟩
  simp [htol]

/-- The anchor's own note is always collected, so its chord's note list
is non-empty. -/
lemma self_mem_chordNotes {all : List MEvent} {t : ℤ} {tol : ℚ} (htol : 0 ≤ tol)
    {n v c p : _} (he : MEvent.noteOn t n v c p ∈ all) : n ∈ chordNotes all t tol := by
  unfold chordNotes
  refine List.mem_filterMap.mpr ⟨MEvent.noteOn t n v c p, he, ?_⟩
  simp [htol]

/-- Every chord the grouping loop emits has a time outside the incoming
`processed_times` set. -/
lemma groupGo_time_notMem {all : List MEvent} {tol : ℚ} :
    ∀ {rest : List MEvent} {proc : List ℤ} {ch : Chord},
      ch ∈ groupGo all tol rest proc → ch.1 ∉ proc := by
  intro rest
  induction rest with
  | nil =>
    intro proc ch hch
    simp [groupGo] at hch
  | cons e rest ih =>
    intro proc ch hch
    cases e with
    | noteOff t n c =>
      rw [groupGo] at hch
      exact ih hch
    | noteOn t n v c p =>
      rw [groupGo] at hch
      by_cases hmem : t ∈ proc
      · rw [if_pos hmem] at hch
        exact ih hch
      · rw [if_neg hmem] at hch
        rcases List.mem_cons.mp hch with h1 | h1
        · subst h1
          exact hmem
        · intro hc
          exact ih h1 (List.mem_append_left _ hc)

/-- No two chords emitted by the grouping loop share a time: each
anchor's time is marked processed the moment its chord is formed. -/
lemma groupGo_pairwise_time {all : List MEvent} {tol : ℚ} (htol : 0 ≤ tol) :
    ∀ {rest : List MEvent} {proc : List ℤ}, (∀ e ∈ rest, e ∈ all) →
      (groupGo all tol rest proc).Pairwise (fun a b => a.1 ≠ b.1) := by
  intro rest
  induction rest with
  | nil =>
    intro proc hsub
    simp [groupGo]
  | cons e rest ih =>
    intro proc hsub
    have hsub' : ∀ e' ∈ rest, e' ∈ all := fun e' he' => hsub e' (List.mem_cons_of_mem _ he')
    cases e with
    | noteOff t n c =>
      rw [groupGo]
      exact ih hsub'
    | noteOn t n v c p =>
      rw [groupGo]
      by_cases hmem : t ∈ proc
      · rw [if_pos hmem]
        exact ih hsub'
      · rw [if_neg hmem]
        refine List.Pairwise.cons ?_ (ih hsub')
        intro ch hch
        have hnot := groupGo_time_notMem hch
        have hself : t ∈ chordTimes all t tol :=
          self_mem_chordTimes htol (hsub _ (List.mem_cons_self _ _))
        intro hc
        apply hnot
        apply List.mem_append_right
        have hct : ch.1 = t := hc.symm
        rw [hct]
        exact hself

/-- Every chord emitted by the grouping loop has a non-empty note
list: the inner scan always matches the anchor itself. -/
lemma groupGo_notes_ne_nil {all : List MEvent} {tol : ℚ} (htol : 0 ≤ tol) :
    ∀ {rest : List MEvent} {proc : List ℤ}, (∀ e ∈ rest, e ∈ all) →
      ∀ ch ∈ groupGo all tol rest proc, ch.2.1 ≠ [] := by
  intro rest
  induction rest with
  | nil =>
    intro proc hsub ch hch
    simp [groupGo] at hch
  | cons e rest ih =>
    intro proc hsub ch hch
    have hsub' : ∀ e' ∈ rest, e' ∈ all := fun e' he' => hsub e' (List.mem_cons_of_mem _ he')
    cases e with
    | noteOff t n c =>
      rw [groupGo] at hch
      exact ih hsub' ch hch
    | noteOn t n v c p =>
      rw [groupGo] at hch
      by_cases hmem : t ∈ proc
      · rw [if_pos hmem] at hch
        exact ih hsub' ch hch
      · rw [if_neg hmem] at hch
        rcases List.mem_cons.mp hch with h1 | h1
        · subst h1
          exact List.ne_nil_of_mem (self_mem_chordNotes htol (hsub _ (List.mem_cons_self _ _)))
        · exact ih hsub' ch h1

/-- C7: after grouping, no two chord events share a time value, and
every chord's note list is non-empty (stated with the chord list as a
`Pairwise`-distinct list and a `Bool`-valued emptiness check so the
statement is hypothesis-free). -/
theorem c7_chord_invariants (ticks_per_beat : ℕ) (events : List MEvent) :
    (groupChords ticks_per_beat events).Pairwise (fun a b => a.1 ≠ b.1) ∧
    (groupChords ticks_per_beat events).all (fun ch => !ch.2.1.isEmpty) = true := by
  have htol : (0 : ℚ) ≤ (ticks_per_beat : ℚ) / 32 := by positivity
  constructor
  · exact groupGo_pairwise_time htol (fun e he => he)
  · rw [List.all_eq_true]
    intro ch hch
    have := groupGo_notes_ne_nil htol (fun e he => he) ch hch
    simp [List.isEmpty_iff]
    exact this

/-- Every line emitted for a chord is tagged with the chord's time. -/
lemma chordLines_time {tpb : ℕ} {st : SState} {t : ℤ} {notes : List ℕ} {prog : ℤ} :
    ∀ x ∈ chordLines tpb st t notes prog, x.1 = t := by
  intro x hx
  unfold chordLines at hx
  rcases List.mem_append.mp hx with h | h
  · rcases List.mem_append.mp h with h1 | h1
    · by_cases hc : gm_to_scratch_instrument prog ≠ st.last_instrument
      · rw [if_pos hc, List.mem_singleton] at h1
        subst h1
        rfl
      · rw [if_neg hc] at h1
        simp at h1
    · by_cases hc : st.previous_time < t
      · rw [if_pos hc] at h1
        by_cases hr : (1/32 : ℚ) ≤ ((t - st.previous_time : ℤ) : ℚ) / (tpb : ℚ)
        · rw [if_pos hr, List.mem_singleton] at h1
          subst h1
          rfl
        · rw [if_neg hr] at h1
          simp at h1
      · rw [if_neg hc] at h1
        simp at h1
  · rw [List.mem_singleton] at h
    subst h
    rfl

/-- Every line emitted for a tempo event is tagged with its time. -/
lemma tempoLines_time {st : SState} {t : ℤ} {tv : ℕ} :
    ∀ x ∈ tempoLines st t tv, x.1 = t := by
  intro x hx
  unfold tempoLines at hx
  by_cases hc : (60000000 : ℚ) / (tv : ℚ) ≠ st.current_bpm
  · rw [if_pos hc, List.mem_singleton] at hx
    subst hx
    rfl
  · rw [if_neg hc] at hx
    simp at hx

/-- The time tag of every serialized line is the time of some input
event. -/
lemma serializeTimed_time_mem {tpb : ℕ} :
    ∀ {evs : List (ℤ × GKind)} {st : SState} {x : ℤ × OutputLine},
      x ∈ serializeTimed tpb st evs → x.1 ∈ evs.map Prod.fst := by
  intro evs
  induction evs with
  | nil =>
    intro st x hx
    simp [serializeTimed] at hx
  | cons e rest ih =>
    intro st x hx
    obtain ⟨t, k⟩ := e
    cases k with
    | tempo tv =>
      rw [serializeTimed] at hx
      rw [List.map_cons]
      rcases List.mem_append.mp hx with h | h
      · rw [tempoLines_time x h]
        exact List.mem_cons_self _ _
      · exact List.mem_cons_of_mem _ (ih h)
    | chord notes prog =>
      rw [serializeTimed] at hx
      rw [List.map_cons]
      rcases List.mem_append.mp hx with h | h
      · rw [chordLines_time x h]
        exact List.mem_cons_self _ _
      · exact List.mem_cons_of_mem _ (ih h)

/-- A list whose entries all carry one time value is trivially sorted
by time. -/
lemma pairwise_time_const {l : List (ℤ × OutputLine)} {t : ℤ} (h : ∀ x ∈ l, x.1 = t) :
    l.Pairwise (fun a b => a.1 ≤ b.1) := by
  induction l with
  | nil => exact List.Pairwise.nil
  | cons a l ih =>
    refine List.Pairwise.cons ?_ (ih fun x hx => h x (List.mem_cons_of_mem _ hx))
    intro b hb
    rw [h a (List.mem_cons_self _ _), h b (List.mem_cons_of_mem _ hb)]

/-- The serializer emits lines whose time tags are non-decreasing
whenever its input stream is sorted by time. -/
lemma serializeTimed_sorted {tpb : ℕ} :
    ∀ {evs : List (ℤ × GKind)} {st : SState},
      evs.Pairwise (fun a b => a.1 ≤ b.1) →
      (serializeTimed tpb st evs).Pairwise (fun a b => a.1 ≤ b.1) := by
  intro evs
  induction evs with
  | nil =>
    intro st hp
    simp [serializeTimed]
  | cons e rest ih =>
    intro st hp
    obtain ⟨t, k⟩ := e
    rcases List.pairwise_cons.mp hp with ⟨hhead, hrest⟩
    cases k with
    | tempo tv =>
      rw [serializeTimed, List.pairwise_append]
      refine ⟨pairwise_time_const (fun x hx => tempoLines_time x hx), ih hrest, ?_⟩
      intro x hx y hy
      rw [tempoLines_time x hx]
      rcases List.mem_map.mp (serializeTimed_time_mem hy) with ⟨e', he', heq⟩
      rw [← heq]
      exact hhead e' he'
    | chord notes prog =>
      rw [serializeTimed, List.pairwise_append]
      refine ⟨pairwise_time_const (fun x hx => chordLines_time x hx), ih hrest, ?_⟩
      intro x hx y hy
      rw [chordLines_time x hx]
      rcases List.mem_map.mp (serializeTimed_time_mem hy) with ⟨e', he', heq⟩
      rw [← heq]
      exact hhead e' he'

/-- The merged stream of chords and tempo changes is sorted by time. -/
lemma mergedStream_sorted (m : MidiFile) :
    (mergedStream m).Pairwise (fun a b => a.1 ≤ b.1) := by
  unfold mergedStream mergeGrouped
  have h := @List.sorted_mergeSort (ℤ × GKind) (fun a b => decide (a.1 ≤ b.1))
    (fun a b c hab hbc => by
      simp only [decide_eq_true_eq] at hab hbc ⊢
      exact le_trans hab hbc)
    (fun a b => by
      simp only [Bool.or_eq_true, decide_eq_true_eq]
      exact le_total _ _)
    (((groupChords m.ticks_per_beat (fileEvents m)).map
        (fun c => (c.1, GKind.chord c.2.1 c.2.2))) ++
      (((tempoDict m.tracks).filter (fun kv => decide (kv.1 > 0))).map
        (fun kv => (kv.1, GKind.tempo kv.2))))
  exact h.imp (fun hab => of_decide_eq_true hab)

/-- C8: on every successful conversion the output starts with an
`Instr:` line then a `BPM:` line, and the event times behind all
subsequently emitted lines form a non-decreasing sequence. -/
theorem c8_output_ordering (m : MidiFile) (h : fileEvents m ≠ []) :
    midi_to_scratch m = Except.ok (OutputLine.instr (firstInstrument (fileEvents m)) ::
      OutputLine.bpm (initialBpm m) :: (timedBody m).map Prod.snd) ∧
    ((timedBody m).map Prod.fst).Pairwise (fun a b => a ≤ b) := by
  constructor
  · unfold midi_to_scratch
    rw [if_neg h]
  · unfold timedBody
    rw [List.pairwise_map]
    exact serializeTimed_sorted (mergedStream_sorted m)

/-- C8, witness at a one-note file. -/
theorem c8_output_ordering_witness :
    midi_to_scratch ⟨480, [[RawMsg.note_on 0 62 64 0]]⟩ =
      Except.ok (OutputLine.instr
          (firstInstrument (fileEvents ⟨480, [[RawMsg.note_on 0 62 64 0]]⟩)) ::
        OutputLine.bpm (initialBpm ⟨480, [[RawMsg.note_on 0 62 64 0]]⟩) ::
        (timedBody ⟨480, [[RawMsg.note_on 0 62 64 0]]⟩).map Prod.snd) ∧
    ((timedBody ⟨480, [[RawMsg.note_on 0 62 64 0]]⟩).map Prod.fst).Pairwise
      (fun a b => a ≤ b) :=
  c8_output_ordering ⟨480, [[RawMsg.note_on 0 62 64 0]]⟩ (by with_unfolding_all decide)
